import Mathlib

/-!
Verification development for `scan.mjs`, a batch client that fetches
generation payloads for a list of FIDs, computes a rarity score from the
trait data in each payload, ranks the entries by score, optionally
requests mint signatures for a selected subset and materializes the result
as an index of rows.

The JavaScript source is shallowly embedded: JSON values become the
inductive `JsonVal` (JS numbers idealized as exact rationals; the payloads
come from JSON bodies, which cannot contain NaN or infinities), property
access that can raise a TypeError (access on `null`) is modelled with
`Except Unit`, and scores live in `ℝ` because the scorer applies the
natural logarithm.
-/

namespace Scan

/-- A JSON value as produced by parsing a response body.  Object fields
are kept as an association list; duplicate keys resolve to the last
occurrence, matching `JSON.parse`. -/
inductive JsonVal : Type where
  | null : JsonVal
  | bool (b : Bool) : JsonVal
  | num (q : ℚ) : JsonVal
  | str (s : String) : JsonVal
  | arr (elems : List JsonVal) : JsonVal
  | obj (fields : List (String × JsonVal)) : JsonVal

/-- Last-wins lookup in an object's field list (JSON duplicate keys keep
the last occurrence, and `new Map(pairs)` also keeps the last pair). -/
def lookupLast (fields : List (String × JsonVal)) (key : String) : Option JsonVal :=
  fields.foldl (fun acc kv => if kv.1 = key then some kv.2 else acc) none

/-- Optional-chaining property access `base?.key`: `none` stands for the
JS `undefined` result.  Never throws — `?.` short-circuits on `null`, and
property access on other primitives yields `undefined`. -/
def optProp (base : JsonVal) (key : String) : Option JsonVal :=
  match base with
  | JsonVal.obj fields => lookupLast fields key
  | _ => none

/-- Plain property access `base.key`, which throws a TypeError when the
base is `null` (array entries coming from JSON are never `undefined`). -/
def getProp (base : JsonVal) (key : String) : Except Unit (Option JsonVal) :=
  match base with
  | JsonVal.null => Except.error ()
  | JsonVal.obj fields => Except.ok (lookupLast fields key)
  | _ => Except.ok none

/-- A JS value is nullish when it is `undefined` (here `none`) or `null`. -/
def isNullish (v : Option JsonVal) : Bool :=
  match v with
  | none => true
  | some JsonVal.null => true
  | some _ => false

/-- The nullish-coalescing chain `t.k1 ?? t.k2 ?? ... ?? dflt`, evaluated
left to right; the first access on a `null` base throws. -/
def coalesce (t : JsonVal) (keys : List String) (dflt : JsonVal) : Except Unit JsonVal :=
  match keys with
  | [] => Except.ok dflt
  | k :: ks =>
    match getProp t k with
    | Except.error u => Except.error u
    | Except.ok v => if isNullish v then coalesce t ks dflt else Except.ok (v.getD JsonVal.null)

/-- Value of a block of decimal digits. -/
def digitsVal (cs : List Char) : ℕ :=
  cs.foldl (fun n c => n * 10 + (c.toNat - 48)) 0

/-- Model of JS `parseFloat` restricted to the shapes that occur in
percent strings: optional leading whitespace, optional sign, decimal
digits with an optional fractional part; trailing garbage (such as the
`%` suffix) is ignored.  `none` models the NaN result when no numeric
prefix exists.  (The exponent form `1e3` and the literal `Infinity` are
not modelled; no claim depends on them.) -/
def parseFloatQ (s : String) : Option ℚ :=
  let cs := s.toList.dropWhile Char.isWhitespace
  let signed : ℚ × List Char :=
    match cs with
    | '-' :: r => (-1, r)
    | '+' :: r => (1, r)
    | _ => (1, cs)
  let intDigits := signed.2.takeWhile Char.isDigit
  let rest := signed.2.dropWhile Char.isDigit
  let fracDigits :=
    match rest with
    | '.' :: r => r.takeWhile Char.isDigit
    | _ => []
  if intDigits.isEmpty && fracDigits.isEmpty then none
  else
    some (signed.1 * ((digitsVal intDigits : ℚ) + (digitsVal fracDigits : ℚ) / ((10 : ℚ) ^ fracDigits.length)))

/-- The normalized percent slot of a trait record: a JS number (which can
be NaN when `parseFloat` fails on a percent string) or `null`. -/
inductive PercentVal : Type where
  | null : PercentVal
  | nan : PercentVal
  | num (q : ℚ) : PercentVal
deriving DecidableEq

/-- The check `percent.endsWith('%')`: the string's last character is `%`. -/
def endsWithPercent (s : String) : Bool :=
  match s.toList.reverse with
  | [] => false
  | c :: _ => c = '%'

/-- The percent-resolution ternary of `normalizeTraits`:
`typeof percent === 'string' && percent.endsWith('%') ? parseFloat(percent)
 : (typeof percent === 'number' ? percent : null)`. -/
def toPercentVal (v : JsonVal) : PercentVal :=
  match v with
  | JsonVal.str s =>
    if endsWithPercent s then
      match parseFloatQ s with
      | some q => PercentVal.num q
      | none => PercentVal.nan
    else PercentVal.null
  | JsonVal.num q => PercentVal.num q
  | _ => PercentVal.null

/-- A normalized trait record.  `trait_type`, `value` and `rarity` keep
the raw JSON value that the coalescing chains produced (the source does
not restrict their types); `percent` is the resolved percent slot. -/
structure TraitRecord : Type where
  trait_type : JsonVal
  value : JsonVal
  percent : PercentVal
  rarity : JsonVal

/-- Normalization of one raw trait entry, following the body of the
`raw.map` callback in `normalizeTraits`: the percent chain, the rarity
chain, then the object literal with its `trait_type`/`value` chains and
the percent ternary.  Throws when the entry is `null`. -/
def normTrait (t : JsonVal) : Except Unit TraitRecord :=
  match coalesce t ["percent", "percentage", "frequency", "rarityPercent"] JsonVal.null with
  | Except.error u => Except.error u
  | Except.ok percentRaw =>
    match coalesce t ["rarity", "score"] JsonVal.null with
    | Except.error u => Except.error u
    | Except.ok rarityRaw =>
      match coalesce t ["trait_type", "traitType", "type"] (JsonVal.str "trait") with
      | Except.error u => Except.error u
      | Except.ok traitType =>
        match coalesce t ["value", "name", "val"] (JsonVal.str "") with
        | Except.error u => Except.error u
        | Except.ok value =>
          Except.ok
            { trait_type := traitType
              value := value
              percent := toPercentVal percentRaw
              rarity := rarityRaw }

/-- Container selection of `normalizeTraits`:
`Array.isArray(data?.attributes) ? data.attributes
 : Array.isArray(data?.traits) ? data.traits : []`. -/
def rawTraits (data : JsonVal) : List JsonVal :=
  match optProp data "attributes" with
  | some (JsonVal.arr xs) => xs
  | _ =>
    match optProp data "traits" with
    | some (JsonVal.arr xs) => xs
    | _ => []

/-- Left-to-right normalization of the selected raw trait list
(`raw.map(...)`); the first throwing entry aborts the whole map. -/
def normTraitList (ts : List JsonVal) : Except Unit (List TraitRecord) :=
  match ts with
  | [] => Except.ok []
  | t :: rest =>
    match normTrait t with
    | Except.error u => Except.error u
    | Except.ok r =>
      match normTraitList rest with
      | Except.error u => Except.error u
      | Except.ok rs => Except.ok (r :: rs)

/-- The function `normalizeTraits` from `scan.mjs`. -/
def normalizeTraits (data : JsonVal) : Except Unit (List TraitRecord) :=
  normTraitList (rawTraits data)

/-- The check `typeof t.percent === 'number' && t.percent > 0` on a
normalized percent slot, returning the positive percent when it passes
(NaN compares false against 0). -/
def posPercentQ (p : PercentVal) : Option ℚ :=
  match p with
  | PercentVal.num q => if 0 < q then some q else none
  | _ => none

/-- The check `typeof t.rarity === 'number'` on a raw rarity slot,
returning the number when it passes. -/
def numRarity (v : JsonVal) : Option ℚ :=
  match v with
  | JsonVal.num r => some r
  | _ => none

/-- Rounding `Number(score.toFixed(6))`: six decimal places, ties away
from the smaller value (the ECMAScript `toFixed` picks the larger
candidate integer on a tie). -/
noncomputable def round6 (x : ℝ) : ℝ :=
  ((Int.floor (x * 1000000 + 1 / 2) : ℤ) : ℝ) / 1000000

/-- One iteration of the scoring loop in `rarityScore`: the `if / else if
/ else` chain adding to the accumulator. -/
noncomputable def traitStep (score : ℝ) (t : TraitRecord) : ℝ :=
  match posPercentQ t.percent with
  | some q => score + (-Real.log ((q : ℝ) / 100))
  | none =>
    match numRarity t.rarity with
    | some r => score + (r : ℝ)
    | none => score + (1 : ℝ) / 2

/-- The check `typeof data?.rarityScore === 'number'`, returning the number. -/
def topRarityNum (data : JsonVal) : Option ℚ :=
  match optProp data "rarityScore" with
  | some (JsonVal.num q) => some q
  | _ => none

/-- The function `rarityScore` from `scan.mjs`: return a top-level numeric
`rarityScore` verbatim, otherwise sum the per-trait contributions over the
normalized traits and round to six decimal places.  Propagates the
TypeError that `normalizeTraits` can raise. -/
noncomputable def rarityScore (data : JsonVal) : Except Unit ℝ :=
  match topRarityNum data with
  | some q => Except.ok (q : ℝ)
  | none =>
    match normalizeTraits data with
    | Except.error u => Except.error u
    | Except.ok traits => Except.ok (round6 (traits.foldl traitStep 0))

/-- Per-trait weight exactly as the specification words it: `-ln(percent/100)`
when the trait's percent is a number strictly greater than 0; else the
trait's rarity number when that is a number; else the flat default weight
0.5 — so percent equal to 0, negative percent and a NaN percent all fall
through to the rarity/default branches. -/
noncomputable def specTraitWeight (t : TraitRecord) : ℝ :=
  match t.percent with
  | PercentVal.num q =>
    if 0 < q then -Real.log ((q : ℝ) / 100)
    else
      match t.rarity with
      | JsonVal.num r => (r : ℝ)
      | _ => (1 : ℝ) / 2
  | _ =>
    match t.rarity with
    | JsonVal.num r => (r : ℝ)
    | _ => (1 : ℝ) / 2

/-- JS truthiness of a possibly-undefined value (`none` is `undefined`).
NaN cannot occur here because the tested values come from JSON. -/
def truthy (v : Option JsonVal) : Bool :=
  match v with
  | none => false
  | some JsonVal.null => false
  | some (JsonVal.bool b) => b
  | some (JsonVal.num q) => decide (q ≠ 0)
  | some (JsonVal.str s) => decide (s ≠ "")
  | some (JsonVal.arr _) => true
  | some (JsonVal.obj _) => true

/-- The chain `a || b || null`: the first truthy operand, else nullish (`none`). -/
def firstTruthy (a b : Option JsonVal) : Option JsonVal :=
  if truthy a then a else if truthy b then b else none

/-- The function `maybeSavePng` from `scan.mjs`, reduced to its pure outcome: the file
name written (paths are modelled relative to the output directory), or
`none`.  `Buffer.from(x, 'base64')` succeeds for strings and arrays and
throws for other values, and that throw is swallowed into `null`. -/
def maybeSavePng (data : JsonVal) (fid : String) : Option String :=
  match firstTruthy (optProp data "generatedImage") (optProp data "imageBase64") with
  | some (JsonVal.str _) => some ("warplet-" ++ fid ++ ".png")
  | some (JsonVal.arr _) => some ("warplet-" ++ fid ++ ".png")
  | _ => none

/-- Template-literal stringification of a JSON value.  Number rendering
is approximated by the rational's own representation and array rendering
by the empty string; no verified claim depends on the rendered text. -/
def jsToString (v : JsonVal) : String :=
  match v with
  | JsonVal.null => "null"
  | JsonVal.bool b => if b then "true" else "false"
  | JsonVal.num q => toString q
  | JsonVal.str s => s
  | JsonVal.arr _ => ""
  | JsonVal.obj _ => "[object Object]"

/-- Rendering of a normalized percent slot inside the summary. -/
def percentText (p : PercentVal) : String :=
  match p with
  | PercentVal.null => ""
  | PercentVal.nan => "NaN%"
  | PercentVal.num q => toString q ++ "%"

/-- One summary item: `` `${t.trait_type}:${t.value}${pct ? `(${pct})` : ''}` ``
where `pct` is empty exactly when percent is `null`. -/
def traitSummaryItem (t : TraitRecord) : String :=
  let pct := percentText t.percent
  jsToString t.trait_type ++ ":" ++ jsToString t.value ++
    (if pct = "" then "" else "(" ++ pct ++ ")")

/-- The function `traitsSummary` from `scan.mjs`. -/
def traitsSummary (data : JsonVal) : Except Unit String :=
  match normalizeTraits data with
  | Except.error u => Except.error u
  | Except.ok traits => Except.ok (String.intercalate " | " (traits.map traitSummaryItem))

/-- The backoff update of the generate loop
(`backoff = Math.min(maxBack, Math.max(500, Math.floor(backoff * 1.5)))`
with `maxBack = 50`), before jitter. -/
def generateNextBackoff (backoff : ℤ) : ℤ :=
  min 50 (max 500 (Int.floor ((backoff : ℚ) * (3 / 2))))

/-- The backoff update of the sign loop, floor constant 800, cap 50. -/
def signNextBackoff (backoff : ℤ) : ℤ :=
  min 50 (max 800 (Int.floor ((backoff : ℚ) * (3 / 2))))

/-- The sort `metas.sort((a, b) => b.score - a.score)`: a stable descending sort on
the key.  JS `Array.prototype.sort` is stable, and a stable sort with a
consistent comparator has a unique result, so insertion sort (inserting an
earlier element in front of later elements with keys less than or equal to
its own) is the embedding. -/
def sortDescBy {α β : Type} [LinearOrder β] (key : α → β) (l : List α) : List α :=
  List.insertionSort (fun a b => key b ≤ key a) l

/-- Signature-target selection from `scan.mjs` step 3: empty when the
wallet address is empty, the score-filtered top-K prefix in rare-only
mode, else all entries.  The entry list is the already sorted `metas`. -/
def selectTargets {α β : Type} [LinearOrder β] (key : α → β) (addr : String)
    (rareOnly : Bool) (topK : ℕ) (minScore : β) (metas : List α) : List α :=
  if addr = "" then []
  else if rareOnly then (metas.filter (fun m => minScore ≤ key m)).take topK
  else metas

/-- One scored entry (`metas` element) of the pipeline. -/
structure ScoredEntry : Type where
  fid : String
  score : ℝ
  summary : String
  jsonPath : String
  pngPath : String
  data : JsonVal

/-- A per-target signature result as built in step 3 of `scan.mjs`. -/
structure SigResult : Type where
  fid : String
  ok : Bool
  path : String
  error : String

/-- One row of the index file (header
`fid, rarityScore, traits, json, png, signature, sig_error`). -/
structure IndexRow : Type where
  fid : String
  rarityScore : ℝ
  traits : String
  json : String
  png : String
  signature : String
  sig_error : String

/-- Splitting a character list at newline characters (the separators of
the `/\r?\n/` split; the optional `\r` is removed by the later trim). -/
def splitNewlines (cs : List Char) : List (List Char) :=
  match cs with
  | [] => [[]]
  | c :: rest =>
    if c = '\n' then [] :: splitNewlines rest
    else
      match splitNewlines rest with
      | [] => [[c]]
      | l :: ls => (c :: l) :: ls

/-- The trim `s.trim()`: strip whitespace from both ends. -/
def jsTrim (s : String) : String :=
  String.mk (((s.toList.dropWhile Char.isWhitespace).reverse.dropWhile
    Char.isWhitespace).reverse)

/-- The FID list read at startup: split the input on line breaks, trim
each line, drop blank lines. -/
def parseFids (input : String) : List String :=
  ((splitNewlines input.toList).map (fun l => jsTrim (String.mk l))).filter
    (fun s => s ≠ "")

/-- The per-FID work of step 1: `generateMeta` always eventually succeeds
with the remote payload (modelled by the `remote` oracle), then the entry
is scored and summarized.  File paths are modelled relative to the output
directory, so `path.basename` is the identity on them. -/
noncomputable def generateEntry (remote : String → JsonVal) (fid : String) :
    Except Unit ScoredEntry :=
  match rarityScore (remote fid) with
  | Except.error u => Except.error u
  | Except.ok score =>
    match traitsSummary (remote fid) with
    | Except.error u => Except.error u
    | Except.ok summary =>
      Except.ok
        { fid := fid
          score := score
          summary := summary
          jsonPath := "warplet-" ++ fid ++ ".json"
          pngPath := (maybeSavePng (remote fid) fid).getD ""
          data := remote fid }

/-- Scored entries for a list of FIDs, in input order; a scoring throw in
any entry crashes the run. -/
noncomputable def entriesFor (remote : String → JsonVal) (fids : List String) :
    Except Unit (List ScoredEntry) :=
  match fids with
  | [] => Except.ok []
  | fid :: rest =>
    match generateEntry remote fid with
    | Except.error u => Except.error u
    | Except.ok e =>
      match entriesFor remote rest with
      | Except.error u => Except.error u
      | Except.ok es => Except.ok (e :: es)

/-- The `metas` list before sorting. -/
noncomputable def runMetas (remote : String → JsonVal) (input : String) :
    Except Unit (List ScoredEntry) :=
  entriesFor remote (parseFids input)

/-- The lookup `new Map(sigResults.map(s => [s.fid, s])).get(fid)` (last pair wins). -/
def sigLookup (rs : List SigResult) (fid : String) : Option SigResult :=
  rs.foldl (fun acc s => if s.fid = fid then some s else acc) none

/-- One final index row, from step 4 of `scan.mjs`:
`signature` is the signature file when the lookup hit reports `ok`, else
empty; `sig_error` is the lookup's error string when truthy, else `''`
with a wallet and the `NO_WALLET` sentinel without one. -/
def mkRow (addr : String) (lookup : String → Option SigResult) (m : ScoredEntry) : IndexRow :=
  { fid := m.fid
    rarityScore := m.score
    traits := m.summary
    json := m.jsonPath
    png := m.pngPath
    signature :=
      match lookup m.fid with
      | some s => if s.ok then s.path else ""
      | none => ""
    sig_error :=
      match lookup m.fid with
      | some s => if s.error ≠ "" then s.error else (if addr = "" then "NO_WALLET" else "")
      | none => if addr = "" then "NO_WALLET" else "" }

/-- The fully written final index file, as the pure projection computed by
the orchestrator: score and sort all entries, select signature targets,
collect the (always-successful) signature results, and render one row per
sorted entry.  `requestSignature` never returns failure, so each target's
result has `ok := true`, the sign file path and an empty error. -/
noncomputable def finalRows (remote : String → JsonVal) (input addr : String)
    (rareOnly : Bool) (topK : ℕ) (minScore : ℝ) : Except Unit (List IndexRow) :=
  match runMetas remote input with
  | Except.error u => Except.error u
  | Except.ok metas =>
    let sorted := sortDescBy (fun m : ScoredEntry => m.score) metas
    let targets := selectTargets (fun m : ScoredEntry => m.score) addr rareOnly topK minScore sorted
    let sigResults := targets.map (fun m =>
      ({ fid := m.fid, ok := true, path := "sign-" ++ m.fid ++ ".json", error := "" } : SigResult))
    Except.ok (sorted.map (mkRow addr (sigLookup sigResults)))

/-! ## Scoring lemmas -/

theorem traitStep_eq_add_weight (s : ℝ) (t : TraitRecord) :
    traitStep s t = s + specTraitWeight t := by
  rcases t with ⟨tt, v, p, r⟩
  cases p <;> cases r <;>
    simp only [traitStep, specTraitWeight, posPercentQ, numRarity] <;>
    split_ifs <;> simp

theorem foldl_traitStep_eq_sum (ts : List TraitRecord) (s : ℝ) :
    ts.foldl traitStep s = s + (ts.map specTraitWeight).sum := by
  induction ts generalizing s with
  | nil => simp
  | cons t rest ih =>
    rw [List.foldl_cons, ih, traitStep_eq_add_weight]
    simp [add_assoc]

theorem rarityScore_top (data : JsonVal) (q : ℚ) (h : topRarityNum data = some q) :
    rarityScore data = Except.ok ((q : ℚ) : ℝ) := by
  unfold rarityScore
  rw [h]

theorem rarityScore_traits (data : JsonVal) (ts : List TraitRecord)
    (h1 : topRarityNum data = none) (h2 : normalizeTraits data = Except.ok ts) :
    rarityScore data = Except.ok (round6 (ts.foldl traitStep 0)) := by
  unfold rarityScore
  rw [h1, h2]

/-- C1: for a payload without a top-level numeric `rarityScore`, the score
returned by the scorer equals the sum, over the normalized traits, of the
specification's per-trait weight (`-ln(percent/100)` for a numeric percent
strictly greater than 0, else the numeric rarity, else the flat 0.5, with
percent equal to 0 or negative falling through), rounded to six decimal
places. -/
theorem rarityScore_eq_spec_sum (data : JsonVal) (ts : List TraitRecord)
    (hTop : topRarityNum data = none)
    (hNorm : normalizeTraits data = Except.ok ts) :
    rarityScore data = Except.ok (round6 ((ts.map specTraitWeight).sum)) := by
  rw [rarityScore_traits data ts hTop hNorm, foldl_traitStep_eq_sum, zero_add]

def dataC1 : JsonVal := JsonVal.obj [("attributes", JsonVal.arr [JsonVal.obj []])]

def trC1 : TraitRecord :=
  { trait_type := JsonVal.str "trait", value := JsonVal.str "",
    percent := PercentVal.null, rarity := JsonVal.null }

def tsC1 : List TraitRecord := [trC1]

/-- Witness for C1 at a concrete payload holding one trait with no rarity
signal at all. -/
theorem rarityScore_eq_spec_sum_witness :
    topRarityNum dataC1 = none ∧ normalizeTraits dataC1 = Except.ok tsC1 ∧
    rarityScore dataC1 = Except.ok (round6 ((tsC1.map specTraitWeight).sum)) :=
  ⟨rfl, rfl, rarityScore_eq_spec_sum dataC1 tsC1 rfl rfl⟩

def dataC2neg : JsonVal := JsonVal.obj [("rarityScore", JsonVal.num (-1))]

/-- C2 counterexample: a payload carrying the top-level numeric field
`rarityScore = -1` is returned verbatim by the scorer, so the returned
score is negative — the scorer is not non-negative for every payload. -/
theorem rarityScore_negative_passthrough :
    rarityScore dataC2neg = Except.ok (((-1 : ℚ) : ℝ)) ∧ (((-1 : ℚ) : ℝ)) < 0 := by
  constructor
  · rfl
  · norm_num

/-- A trait whose resolved rarity signal cannot push the score negative:
a positive percent of at most 100, or a non-negative numeric rarity, or no
signal at all. -/
def nonNegSignal (t : TraitRecord) : Prop :=
  match posPercentQ t.percent with
  | some q => q ≤ 100
  | none =>
    match numRarity t.rarity with
    | some r => 0 ≤ r
    | none => True

theorem posPercentQ_pos {p : PercentVal} {q : ℚ} (h : posPercentQ p = some q) :
    0 < q := by
  cases p with
  | null => simp [posPercentQ] at h
  | nan => simp [posPercentQ] at h
  | num q' =>
    by_cases hq : 0 < q'
    · simp only [posPercentQ, if_pos hq, Option.some.injEq] at h
      exact h ▸ hq
    · simp [posPercentQ, hq] at h

theorem specTraitWeight_nonneg {t : TraitRecord} (h : nonNegSignal t) :
    0 ≤ specTraitWeight t := by
  rcases t with ⟨tt, v, p, r⟩
  cases p with
  | num q =>
    by_cases hq : 0 < q
    · have hle : q ≤ 100 := by
        simpa [nonNegSignal, posPercentQ, hq] using h
      simp only [specTraitWeight, if_pos hq]
      rw [neg_nonneg]
      apply Real.log_nonpos
      · positivity
      · rw [div_le_one (by norm_num)]
        exact_mod_cast hle
    · cases r <;>
        simp only [nonNegSignal, posPercentQ, numRarity, specTraitWeight, if_neg hq] at h ⊢ <;>
        first
        | exact_mod_cast h
        | norm_num
  | null =>
    cases r <;>
      simp only [nonNegSignal, posPercentQ, numRarity, specTraitWeight] at h ⊢ <;>
      first
      | exact_mod_cast h
      | norm_num
  | nan =>
    cases r <;>
      simp only [nonNegSignal, posPercentQ, numRarity, specTraitWeight] at h ⊢ <;>
      first
      | exact_mod_cast h
      | norm_num

theorem round6_nonneg {x : ℝ} (hx : 0 ≤ x) : 0 ≤ round6 x := by
  unfold round6
  have h1 : (0 : ℝ) ≤ x * 1000000 + 1 / 2 := by
    have : (0 : ℝ) ≤ x * 1000000 := by positivity
    linarith
  have h2 : (0 : ℤ) ≤ Int.floor (x * 1000000 + 1 / 2) := by
    rw [Int.le_floor]
    exact_mod_cast h1
  have h3 : (0 : ℝ) ≤ ((Int.floor (x * 1000000 + 1 / 2) : ℤ) : ℝ) := by exact_mod_cast h2
  positivity

/-- C2 (amended): the score is non-negative provided the top-level
`rarityScore`, when it is numeric, is itself non-negative, and every
normalized trait carries a non-negative rarity signal (positive percent of
at most 100, or non-negative numeric rarity, or none).  The code returns a
negative top-level `rarityScore`, a negative numeric trait rarity, or the
negative log of a percent above 100 as-is, so the unconditional claim
fails. -/
theorem rarityScore_nonneg_amended (data : JsonVal) (r : ℝ)
    (h : rarityScore data = Except.ok r)
    (hTop : ∀ q : ℚ, topRarityNum data = some q → 0 ≤ q)
    (hTraits : ∀ ts, normalizeTraits data = Except.ok ts → ∀ t ∈ ts, nonNegSignal t) :
    0 ≤ r := by
  cases hT : topRarityNum data with
  | some q =>
    rw [rarityScore_top data q hT] at h
    injection h with h2
    rw [← h2]
    exact_mod_cast hTop q hT
  | none =>
    cases hN : normalizeTraits data with
    | error u =>
      have : rarityScore data = Except.error u := by
        unfold rarityScore
        rw [hT, hN]
      rw [this] at h
      exact absurd h (by simp)
    | ok ts =>
      rw [rarityScore_traits data ts hT hN] at h
      injection h with h2
      rw [← h2, foldl_traitStep_eq_sum, zero_add]
      apply round6_nonneg
      apply List.sum_nonneg
      intro x hx
      obtain ⟨t, ht, rfl⟩ := List.mem_map.mp hx
      exact specTraitWeight_nonneg (hTraits ts hN t ht)

/-- Witness for the amended C2 on a payload with a single trait carrying
no rarity signal, whose score is the rounded default weight. -/
theorem rarityScore_nonneg_amended_witness :
    rarityScore dataC1 = Except.ok (round6 (tsC1.foldl traitStep 0)) ∧
    0 ≤ round6 (tsC1.foldl traitStep 0) := by
  refine ⟨rfl, ?_⟩
  apply rarityScore_nonneg_amended dataC1 (round6 (tsC1.foldl traitStep 0)) rfl
  · intro q hq
    rw [show topRarityNum dataC1 = none from rfl] at hq
    cases hq
  · intro ts hts t ht
    rw [show normalizeTraits dataC1 = Except.ok tsC1 from rfl] at hts
    injection hts with h2
    rw [← h2] at ht
    simp only [tsC1, List.mem_singleton] at ht
    rw [ht]
    simp [nonNegSignal, trC1, posPercentQ, numRarity]

/-! ## Normalizer totality -/

def dataC3 : JsonVal := JsonVal.obj [("attributes", JsonVal.arr [JsonVal.null])]

/-- C3 counterexample: a payload whose trait array contains the entry
`null` makes the normalizer throw (property access on `null` raises a
TypeError), so the normalizer is not total over trait entries of arbitrary
shape. -/
theorem normalizeTraits_throws_on_null_entry :
    normalizeTraits dataC3 = Except.error () := rfl

theorem getProp_ok {t : JsonVal} (h : t ≠ JsonVal.null) (k : String) :
    ∃ o, getProp t k = Except.ok o := by
  cases t with
  | null => exact absurd rfl h
  | bool b => exact ⟨none, rfl⟩
  | num q => exact ⟨none, rfl⟩
  | str s => exact ⟨none, rfl⟩
  | arr xs => exact ⟨none, rfl⟩
  | obj fs => exact ⟨lookupLast fs k, rfl⟩

theorem coalesce_ok {t : JsonVal} (h : t ≠ JsonVal.null) (keys : List String)
    (dflt : JsonVal) : ∃ v, coalesce t keys dflt = Except.ok v := by
  induction keys with
  | nil => exact ⟨dflt, rfl⟩
  | cons k ks ih =>
    obtain ⟨o, ho⟩ := getProp_ok h k
    unfold coalesce
    rw [ho]
    cases hn : isNullish o with
    | true =>
      simp only [hn, if_true]
      exact ih
    | false =>
      simp only [hn, Bool.false_eq_true, if_false]
      exact ⟨o.getD JsonVal.null, rfl⟩

theorem normTrait_ok {t : JsonVal} (h : t ≠ JsonVal.null) :
    ∃ r, normTrait t = Except.ok r := by
  obtain ⟨p, hp⟩ := coalesce_ok h ["percent", "percentage", "frequency", "rarityPercent"] JsonVal.null
  obtain ⟨rr, hr⟩ := coalesce_ok h ["rarity", "score"] JsonVal.null
  obtain ⟨tt, htt⟩ := coalesce_ok h ["trait_type", "traitType", "type"] (JsonVal.str "trait")
  obtain ⟨vv, hv⟩ := coalesce_ok h ["value", "name", "val"] (JsonVal.str "")
  unfold normTrait
  rw [hp, hr, htt, hv]
  exact ⟨_, rfl⟩

theorem normTraitList_ok {ts : List JsonVal} (h : ∀ t ∈ ts, t ≠ JsonVal.null) :
    ∃ rs, normTraitList ts = Except.ok rs ∧ rs.length = ts.length := by
  induction ts with
  | nil => exact ⟨[], rfl, rfl⟩
  | cons t rest ih =>
    obtain ⟨r, hr⟩ := normTrait_ok (h t (by simp))
    obtain ⟨rs, hrs, hlen⟩ := ih (fun x hx => h x (by simp [hx]))
    refine ⟨r :: rs, ?_, by simp [hlen]⟩
    unfold normTraitList
    rw [hr, hrs]

/-- C3 (amended): the normalizer is total except for trait arrays that
contain a `null` entry — for every payload whose raw trait entries are all
non-`null` (entries of any other shape included) it returns a TraitRecord
list with one record per entry, and an absent or malformed trait container
yields the empty list. -/
theorem normalizeTraits_total_amended (data : JsonVal)
    (h : ∀ t ∈ rawTraits data, t ≠ JsonVal.null) :
    (∃ ts, normalizeTraits data = Except.ok ts ∧ ts.length = (rawTraits data).length) ∧
    (rawTraits data = [] → normalizeTraits data = Except.ok []) := by
  constructor
  · exact normTraitList_ok h
  · intro h0
    unfold normalizeTraits
    rw [h0]
    rfl

def dataC3w : JsonVal := JsonVal.obj [("traits", JsonVal.arr [JsonVal.num 5, JsonVal.str "x"])]

/-- Witness for the amended C3 on a payload whose trait array holds a bare
number and a bare string (arbitrary non-null shapes). -/
theorem normalizeTraits_total_amended_witness :
    (∀ t ∈ rawTraits dataC3w, t ≠ JsonVal.null) ∧
    ((∃ ts, normalizeTraits dataC3w = Except.ok ts ∧
        ts.length = (rawTraits dataC3w).length) ∧
     (rawTraits dataC3w = [] → normalizeTraits dataC3w = Except.ok [])) := by
  have h : ∀ t ∈ rawTraits dataC3w, t ≠ JsonVal.null := by
    intro t ht
    rw [show rawTraits dataC3w = [JsonVal.num 5, JsonVal.str "x"] from rfl] at ht
    simp only [List.mem_cons, List.not_mem_nil, or_false] at ht
    rcases ht with h1 | h2
    · rw [h1]
      intro hc
      cases hc
    · rw [h2]
      intro hc
      cases hc
  exact ⟨h, normalizeTraits_total_amended dataC3w h⟩

/-! ## Backoff clamping -/

/-- C4 counterexample: with previous backoff 10 (the loop's initial
value), `min(50, max(500, floor(10 * 1.5)))` evaluates to 50 — the cap —
and not to the floor values 500 / 800 the claim names. -/
theorem backoff_clamps_to_cap_counterexample :
    generateNextBackoff 10 = 50 ∧ signNextBackoff 10 = 50 ∧
    generateNextBackoff 10 ≠ 500 ∧ signNextBackoff 10 ≠ 800 := by
  have h : Int.floor (((10 : ℤ) : ℚ) * (3 / 2)) = 15 := by norm_num
  have hg : generateNextBackoff 10 = 50 := by
    unfold generateNextBackoff
    rw [h]
    decide
  have hs : signNextBackoff 10 = 50 := by
    unfold signNextBackoff
    rw [h]
    decide
  refine ⟨hg, hs, ?_, ?_⟩
  · rw [hg]
    decide
  · rw [hs]
    decide

/-- C4 (amended): because the cap constant (50 ms) is numerically smaller
than the floor constant (500 ms for generate, 800 ms for sign), the
computed backoff before jitter is always clamped to the cap value 50 ms —
never to the floor — for every previous backoff value. -/
theorem backoff_always_cap (b : ℤ) :
    generateNextBackoff b = 50 ∧ signNextBackoff b = 50 := by
  constructor
  · exact min_eq_left (le_trans (by norm_num) (le_max_left 500 _))
  · exact min_eq_left (le_trans (by norm_num) (le_max_left 800 _))

/-! ## Ranking -/

theorem sortDescBy_perm {α β : Type} [LinearOrder β] (key : α → β) (l : List α) :
    (sortDescBy key l).Perm l :=
  List.perm_insertionSort _ l

theorem sortDescBy_pairwise {α β : Type} [LinearOrder β] (key : α → β) (l : List α) :
    List.Pairwise (fun a b => key b ≤ key a) (sortDescBy key l) := by
  haveI : IsTotal α (fun a b => key b ≤ key a) := ⟨fun a b => le_total (key b) (key a)⟩
  haveI : IsTrans α (fun a b => key b ≤ key a) := ⟨fun a b c h1 h2 => le_trans h2 h1⟩
  exact List.sorted_insertionSort _ l

theorem filter_orderedInsert {α β : Type} [LinearOrder β] (key : α → β) (x : α)
    (l : List α) (s : β) :
    (List.orderedInsert (fun a b => key b ≤ key a) x l).filter (fun y => key y = s) =
      if key x = s then x :: l.filter (fun y => key y = s)
      else l.filter (fun y => key y = s) := by
  induction l with
  | nil =>
    by_cases hx : key x = s <;> simp [List.orderedInsert, List.filter, hx]
  | cons y ys ih =>
    by_cases hr : key y ≤ key x
    · simp only [List.orderedInsert, if_pos hr]
      by_cases hx : key x = s <;> by_cases hy : key y = s <;>
        simp [List.filter_cons, hx, hy]
    · simp only [List.orderedInsert, if_neg hr]
      have hlt : key x < key y := lt_of_not_le hr
      by_cases hx : key x = s
      · have hy : key y ≠ s := by
          rw [← hx]
          exact ne_of_gt hlt
        simp [List.filter_cons, hy, ih, hx]
      · simp [List.filter_cons, ih, hx]

theorem sortDescBy_filter_eq {α β : Type} [LinearOrder β] (key : α → β) (l : List α)
    (s : β) :
    (sortDescBy key l).filter (fun y => key y = s) = l.filter (fun y => key y = s) := by
  induction l with
  | nil => rfl
  | cons x xs ih =>
    show (List.orderedInsert (fun a b => key b ≤ key a) x
        (List.insertionSort (fun a b => key b ≤ key a) xs)).filter
        (fun y => key y = s) = _
    rw [filter_orderedInsert]
    have ih' : (List.insertionSort (fun a b => key b ≤ key a) xs).filter
        (fun y => key y = s) = xs.filter (fun y => key y = s) := ih
    by_cases hx : key x = s
    · rw [if_pos hx, ih', List.filter_cons]
      simp [hx]
    · rw [if_neg hx, ih', List.filter_cons]
      simp [hx]

/-- C5: ranking is a stable descending sort on score — the ranked list is
pairwise descending in score, entries of any fixed score keep their
original relative order (the score-s sublist is unchanged), the ranked
list is a permutation of the input, and on scores [3, 5, 5, 1] for
identifiers [A, B, C, D] the ranked order is [B, C, A, D]. -/
theorem ranking_stable_descending :
    (∀ l : List ScoredEntry,
        List.Pairwise (fun a b => b.score ≤ a.score)
          (sortDescBy (fun m : ScoredEntry => m.score) l)) ∧
    (∀ (l : List ScoredEntry) (s : ℝ),
        (sortDescBy (fun m : ScoredEntry => m.score) l).filter (fun m => m.score = s) =
          l.filter (fun m => m.score = s)) ∧
    (∀ l : List ScoredEntry, (sortDescBy (fun m : ScoredEntry => m.score) l).Perm l) ∧
    sortDescBy Prod.snd [("A", (3 : ℚ)), ("B", 5), ("C", 5), ("D", 1)] =
      [("B", (5 : ℚ)), ("C", 5), ("A", 3), ("D", 1)] := by
  refine ⟨fun l => sortDescBy_pairwise _ l, fun l s => sortDescBy_filter_eq _ l s,
    fun l => sortDescBy_perm _ l, ?_⟩
  rfl

/-- C6: with a wallet configured and rare-only mode on, the target set is
the top-K prefix, in the given (already sorted) order, of the entries
whose score meets the minimum threshold; with topK = 2, minScore = 2 and
entries scored (A,5), (B,3), (C,1), (D,4), the targets after sorting are
[A, D]. -/
theorem rare_only_target_selection {α β : Type} [LinearOrder β] (key : α → β)
    (addr : String) (topK : ℕ) (minScore : β) (metas : List α) (h : addr ≠ "") :
    selectTargets key addr true topK minScore metas =
      (metas.filter (fun m => minScore ≤ key m)).take topK ∧
    selectTargets Prod.snd "0xabc" true 2 (2 : ℚ)
      (sortDescBy Prod.snd [("A", (5 : ℚ)), ("B", 3), ("C", 1), ("D", 4)]) =
      [("A", (5 : ℚ)), ("D", 4)] := by
  constructor
  · simp [selectTargets, h]
  · rfl

/-- Witness for C6 at the concrete wallet address, topK and threshold of
the claim's scenario. -/
theorem rare_only_target_selection_witness :
    ("0xabc" : String) ≠ "" ∧
    selectTargets Prod.snd "0xabc" true 2 (2 : ℚ)
      (sortDescBy Prod.snd [("A", (5 : ℚ)), ("B", 3), ("C", 1), ("D", 4)]) =
      [("A", (5 : ℚ)), ("D", 4)] := by
  have h : ("0xabc" : String) ≠ "" := by decide
  exact ⟨h, (rare_only_target_selection Prod.snd "0xabc" 2 (2 : ℚ)
    (sortDescBy Prod.snd [("A", (5 : ℚ)), ("B", 3), ("C", 1), ("D", 4)]) h).2⟩

/-! ## Container aliasing in the normalizer -/

/-- C7: a payload whose trait list sits under the alternate container
name `traits` (with no `attributes` field) normalizes exactly like a
payload with the same array under the canonical name `attributes`. -/
theorem traits_container_alias (d : JsonVal) (L : List JsonVal)
    (hA : optProp d "attributes" = none)
    (hT : optProp d "traits" = some (JsonVal.arr L)) :
    normalizeTraits d = normalizeTraits (JsonVal.obj [("attributes", JsonVal.arr L)]) := by
  have h1 : rawTraits d = L := by
    unfold rawTraits
    rw [hA, hT]
  have h2 : rawTraits (JsonVal.obj [("attributes", JsonVal.arr L)]) = L := rfl
  unfold normalizeTraits
  rw [h1, h2]

def dataC7 : JsonVal :=
  JsonVal.obj [("traits", JsonVal.arr [JsonVal.obj [("value", JsonVal.str "x")]])]

/-- Witness for C7 on a one-trait payload stored under `traits`. -/
theorem traits_container_alias_witness :
    optProp dataC7 "attributes" = none ∧
    optProp dataC7 "traits" = some (JsonVal.arr [JsonVal.obj [("value", JsonVal.str "x")]]) ∧
    normalizeTraits dataC7 =
      normalizeTraits (JsonVal.obj
        [("attributes", JsonVal.arr [JsonVal.obj [("value", JsonVal.str "x")]])]) :=
  ⟨rfl, rfl, traits_container_alias dataC7 [JsonVal.obj [("value", JsonVal.str "x")]] rfl rfl⟩

/-- C10: when `attributes` is present as an array, normalization depends
only on that array — two payloads with the same `attributes` array
normalize identically whatever their `traits` fields hold. -/
theorem attributes_shadows_traits (d e : JsonVal) (L : List JsonVal)
    (hd : optProp d "attributes" = some (JsonVal.arr L))
    (he : optProp e "attributes" = some (JsonVal.arr L)) :
    normalizeTraits d = normalizeTraits e := by
  have h1 : rawTraits d = L := by
    unfold rawTraits
    rw [hd]
  have h2 : rawTraits e = L := by
    unfold rawTraits
    rw [he]
  unfold normalizeTraits
  rw [h1, h2]

def attrsC10 : List JsonVal := [JsonVal.obj [("rarity", JsonVal.num 3)]]

def dataC10a : JsonVal :=
  JsonVal.obj [("attributes", JsonVal.arr attrsC10), ("traits", JsonVal.arr [JsonVal.num 1])]

def dataC10b : JsonVal :=
  JsonVal.obj [("attributes", JsonVal.arr attrsC10),
    ("traits", JsonVal.arr [JsonVal.str "zzz", JsonVal.bool true])]

/-- Witness for C10 on two payloads sharing `attributes` but holding
entirely different `traits` arrays. -/
theorem attributes_shadows_traits_witness :
    optProp dataC10a "attributes" = some (JsonVal.arr attrsC10) ∧
    optProp dataC10b "attributes" = some (JsonVal.arr attrsC10) ∧
    normalizeTraits dataC10a = normalizeTraits dataC10b :=
  ⟨rfl, rfl, attributes_shadows_traits dataC10a dataC10b attrsC10 rfl rfl⟩

/-! ## The index file -/

theorem generateEntry_fid {remote : String → JsonVal} {fid : String} {e : ScoredEntry}
    (h : generateEntry remote fid = Except.ok e) : e.fid = fid := by
  unfold generateEntry at h
  cases hs : rarityScore (remote fid) with
  | error u =>
    rw [hs] at h
    exact Except.noConfusion h
  | ok score =>
    rw [hs] at h
    cases ht : traitsSummary (remote fid) with
    | error u =>
      rw [ht] at h
      exact Except.noConfusion h
    | ok summary =>
      rw [ht] at h
      injection h with h2
      rw [← h2]

theorem entriesFor_map_fid {remote : String → JsonVal} :
    ∀ {fids : List String} {es : List ScoredEntry},
      entriesFor remote fids = Except.ok es → es.map (fun e => e.fid) = fids
  | [], es, h => by
    unfold entriesFor at h
    injection h with h2
    rw [← h2]
    rfl
  | fid :: rest, es, h => by
    unfold entriesFor at h
    cases hg : generateEntry remote fid with
    | error u =>
      rw [hg] at h
      exact Except.noConfusion h
    | ok e =>
      rw [hg] at h
      cases hr : entriesFor remote rest with
      | error u =>
        rw [hr] at h
        exact Except.noConfusion h
      | ok es' =>
        rw [hr] at h
        injection h with h2
        rw [← h2]
        simp only [List.map_cons]
        rw [generateEntry_fid hg, entriesFor_map_fid hr]

theorem finalRows_err (remote : String → JsonVal) (input addr : String)
    (rareOnly : Bool) (topK : ℕ) (minScore : ℝ) (u : Unit)
    (h : runMetas remote input = Except.error u) :
    finalRows remote input addr rareOnly topK minScore = Except.error u := by
  unfold finalRows
  rw [h]

theorem finalRows_ok (remote : String → JsonVal) (input addr : String)
    (rareOnly : Bool) (topK : ℕ) (minScore : ℝ) (metas : List ScoredEntry)
    (h : runMetas remote input = Except.ok metas) :
    finalRows remote input addr rareOnly topK minScore =
      Except.ok ((sortDescBy (fun m : ScoredEntry => m.score) metas).map
        (mkRow addr (sigLookup
          ((selectTargets (fun m : ScoredEntry => m.score) addr rareOnly topK minScore
            (sortDescBy (fun m : ScoredEntry => m.score) metas)).map (fun m =>
              ({ fid := m.fid, ok := true, path := "sign-" ++ m.fid ++ ".json",
                 error := "" } : SigResult)))))) := by
  unfold finalRows
  rw [h]

/-- C8: the fully written index has one row per non-blank input line —
the multiset of row FIDs is exactly the trimmed non-blank line list, with
duplicates kept — and the rows appear in descending score order. -/
theorem index_rows_complete_sorted (remote : String → JsonVal) (input addr : String)
    (rareOnly : Bool) (topK : ℕ) (minScore : ℝ) (rows : List IndexRow)
    (h : finalRows remote input addr rareOnly topK minScore = Except.ok rows) :
    (rows.map (fun r => r.fid)).Perm (parseFids input) ∧
    List.Pairwise (fun a b : IndexRow => b.rarityScore ≤ a.rarityScore) rows := by
  cases hm : runMetas remote input with
  | error u =>
    rw [finalRows_err remote input addr rareOnly topK minScore u hm] at h
    exact Except.noConfusion h
  | ok metas =>
    rw [finalRows_ok remote input addr rareOnly topK minScore metas hm] at h
    injection h with h2
    subst h2
    constructor
    · rw [List.map_map]
      have hperm := (sortDescBy_perm (fun m : ScoredEntry => m.score) metas).map
        (fun m : ScoredEntry => m.fid)
      have hin : metas.map (fun e => e.fid) = parseFids input := entriesFor_map_fid hm
      rw [← hin]
      exact hperm
    · exact List.Pairwise.map _ (fun a b hab => hab)
        (sortDescBy_pairwise (fun m : ScoredEntry => m.score) metas)

def remoteW : String → JsonVal := fun _ => JsonVal.obj [("rarityScore", JsonVal.num 2)]

def entryW : ScoredEntry :=
  { fid := "7", score := ((2 : ℚ) : ℝ), summary := "", jsonPath := "warplet-7.json",
    pngPath := "", data := JsonVal.obj [("rarityScore", JsonVal.num 2)] }

def rowW8 : IndexRow :=
  { fid := "7", rarityScore := ((2 : ℚ) : ℝ), traits := "", json := "warplet-7.json",
    png := "", signature := "sign-7.json", sig_error := "" }

theorem parseFids_oneLine : parseFids "7\n" = ["7"] := by decide

theorem runMetas_oneLine : runMetas remoteW "7\n" = Except.ok [entryW] := by
  unfold runMetas
  rw [parseFids_oneLine]
  rfl

/-- Witness for C8: a one-line input, a payload with a precomputed score
and a configured wallet give a single, signed row. -/
theorem index_rows_complete_sorted_witness :
    finalRows remoteW "7\n" "0xabc" false 10 0 = Except.ok [rowW8] ∧
    (([rowW8].map (fun r => r.fid)).Perm (parseFids "7\n") ∧
     List.Pairwise (fun a b : IndexRow => b.rarityScore ≤ a.rarityScore) [rowW8]) := by
  have hfin : finalRows remoteW "7\n" "0xabc" false 10 0 = Except.ok [rowW8] := by
    rw [finalRows_ok remoteW "7\n" "0xabc" false 10 0 [entryW] runMetas_oneLine]
    rfl
  exact ⟨hfin, index_rows_complete_sorted remoteW "7\n" "0xabc" false 10 0 [rowW8] hfin⟩

/-- C9: with no wallet address configured the signature phase is a no-op
(the target set is empty whatever the entries are), and every final row
carries the `NO_WALLET` sentinel in `sig_error` and an empty `signature`. -/
theorem no_wallet_sentinel (remote : String → JsonVal) (input : String)
    (rareOnly : Bool) (topK : ℕ) (minScore : ℝ) (rows : List IndexRow)
    (h : finalRows remote input "" rareOnly topK minScore = Except.ok rows) :
    (∀ metas : List ScoredEntry,
        selectTargets (fun m : ScoredEntry => m.score) "" rareOnly topK minScore metas = []) ∧
    ∀ r ∈ rows, r.signature = "" ∧ r.sig_error = "NO_WALLET" := by
  have hsel : ∀ metas : List ScoredEntry,
      selectTargets (fun m : ScoredEntry => m.score) "" rareOnly topK minScore metas = [] := by
    intro metas
    simp [selectTargets]
  refine ⟨hsel, ?_⟩
  cases hm : runMetas remote input with
  | error u =>
    rw [finalRows_err remote input "" rareOnly topK minScore u hm] at h
    exact Except.noConfusion h
  | ok metas =>
    rw [finalRows_ok remote input "" rareOnly topK minScore metas hm] at h
    injection h with h2
    subst h2
    intro r hr
    rw [hsel] at hr
    obtain ⟨m, hmem, rfl⟩ := List.mem_map.mp hr
    exact ⟨rfl, rfl⟩

def rowW9 : IndexRow :=
  { fid := "7", rarityScore := ((2 : ℚ) : ℝ), traits := "", json := "warplet-7.json",
    png := "", signature := "", sig_error := "NO_WALLET" }

/-- Witness for C9: the same one-line run with the wallet address left
empty yields the sentinel row. -/
theorem no_wallet_sentinel_witness :
    finalRows remoteW "7\n" "" false 10 0 = Except.ok [rowW9] ∧
    ((∀ metas : List ScoredEntry,
        selectTargets (fun m : ScoredEntry => m.score) "" false 10 0 metas = []) ∧
     ∀ r ∈ [rowW9], r.signature = "" ∧ r.sig_error = "NO_WALLET") := by
  have hfin : finalRows remoteW "7\n" "" false 10 0 = Except.ok [rowW9] := by
    rw [finalRows_ok remoteW "7\n" "" false 10 0 [entryW] runMetas_oneLine]
    rfl
  exact ⟨hfin, no_wallet_sentinel remoteW "7\n" false 10 0 [rowW9] hfin⟩

end Scan
